import Mathlib

/-!
Verification of the nes WebSocket client (src/lib/client.js).

The client is embedded as a state machine over an explicit client state:
the transport readiness flag (models `this._ws !== null` together with
`this._ws.readyState === WS.OPEN`), the id counter `this._ids`, the
pending-request table `this._requests` (a JavaScript object keyed by
numeric ids, modelled as an association list in insertion order), and the
reconnection policy `this._reconnection`.

Callbacks are modelled by abstract numeric labels; an execution produces a
list of `Effect`s recording every callback invocation, every call of the
general error hook `onError`, every `onBroadcast` delivery and every
`setTimeout` scheduling.  The outcome of `JSON.stringify` and of
`ws.send` (which may throw) are inputs of the send event, mirroring the
two failure points of `Client.prototype._send`.

The response-side closures that `Client.prototype.request` and
`Client.prototype.authenticate` pass to `_send` are modelled as the pure
functions `requestHandler` and `authHandler` from the (error, update)
arguments to the observable outcome.
-/

/-- Payload of a response message; `request` reads its `message` field when
synthesizing an error from a 4xx/5xx status code. -/
structure Payload where
  message : String
deriving DecidableEq, Repr

/-- A parsed inbound message (`update` in `Client.prototype._onMessage`):
a JavaScript object whose fields may each be absent (undefined). -/
structure Update where
  nes : String
  id : Option Nat
  statusCode : Option Int
  payload : Option Payload
  headers : Option Nat
  message : Option Nat
  error : Option String
deriving DecidableEq, Repr

/-- Reconnection policy state (`this._reconnection` when non-null):
accumulated wait, delay increment, cap, and the credential to replay. -/
structure Reconnection where
  wait : Nat
  delay : Nat
  maxDelay : Nat
  auth : Option String
deriving DecidableEq, Repr

/-- Client state: transport readiness, id counter, pending table
(association list id to callback label, in insertion order, matching the
ascending `Object.keys` order of integer-keyed objects), reconnection. -/
structure ClientState where
  wsOpen : Bool
  ids : Nat
  requests : List (Nat × Nat)
  reconnection : Option Reconnection
deriving DecidableEq, Repr

/-- Argument with which a `_send`-level callback is invoked:
`callback(err)` or `callback(null, update)`. -/
inductive CbArg where
  | fail (msg : String)
  | update (u : Update)
deriving DecidableEq, Repr

/-- Observable effect of one event: a `_send`-level callback invocation,
an `onError` hook call, an `onBroadcast` delivery, or a `setTimeout`. -/
inductive Effect where
  | cb (label : Nat) (arg : CbArg)
  | onError (msg : String)
  | onBroadcast (message : Option Nat)
  | setTimeout (ms : Nat)
deriving DecidableEq, Repr

/-- Association-list read, modelling `this._requests[id]`. -/
def assocGet (k : Nat) : List (Nat × Nat) → Option Nat
  | [] => none
  | p :: t => if p.1 = k then some p.2 else assocGet k t

/-- Association-list write, modelling `this._requests[id] = callback`
(overwrites an existing key in place, otherwise appends). -/
def assocSet (k v : Nat) : List (Nat × Nat) → List (Nat × Nat)
  | [] => [(k, v)]
  | p :: t => if p.1 = k then (k, v) :: t else p :: assocSet k v t

/-- Association-list delete, modelling `delete this._requests[id]`. -/
def assocDel (k : Nat) : List (Nat × Nat) → List (Nat × Nat)
  | [] => []
  | p :: t => if p.1 = k then t else p :: assocDel k t

/-- Client.prototype._send, lines 212-240.  `stringifyOk` tells whether
`JSON.stringify` succeeds, `sendOk` whether `ws.send` returns without
throwing.  Branches: not connected: fail the callback with Disconnected
and touch nothing; stringify failure: the counter was already
pre-incremented (`request.id = ++this._ids`) but nothing is registered;
send throw: the freshly registered entry is deleted again. -/
def sendStep (label : Nat) (stringifyOk sendOk : Bool) (s : ClientState) :
    ClientState × List Effect :=
  if s.wsOpen = false then
    (s, [.cb label (.fail "Disconnected")])
  else
    let i := s.ids + 1
    let s1 : ClientState := { s with ids := i }
    if stringifyOk = false then
      (s1, [.cb label (.fail "stringify error")])
    else
      let s2 : ClientState := { s1 with requests := assocSet i label s1.requests }
      if sendOk then
        (s2, [])
      else
        ({ s2 with requests := assocDel i s2.requests },
         [.cb label (.fail "send error")])

/-- Client.prototype._reconnect, lines 159-162: bump the accumulated wait
by the delay increment and return the timeout to schedule,
`Math.min(wait, maxDelay)`. -/
def reconnectStep (r : Reconnection) : Reconnection × Nat :=
  let r2 : Reconnection := { r with wait := r.wait + r.delay }
  (r2, min r2.wait r2.maxDelay)

/-- Client.prototype._reconnect as acting on the client state: a no-op
when the policy is null, otherwise bump the wait and schedule a timer. -/
def clientReconnect (s : ClientState) : ClientState × List Effect :=
  match s.reconnection with
  | none => (s, [])
  | some r =>
    let p := reconnectStep r
    ({ s with reconnection := some p.1 }, [.setTimeout p.2])

/-- Client.prototype._onClose, lines 134-151: clear the transport handle,
flush every pending request with `Error('Disconnected')` (in table
order), then run `_reconnect`. -/
def onCloseStep (s : ClientState) : ClientState × List Effect :=
  let flushed := s.requests.map (fun p => Effect.cb p.2 (.fail "Disconnected"))
  let s2 : ClientState := { s with wsOpen := false, requests := [] }
  let q := clientReconnect s2
  (q.1, flushed ++ q.2)

/-- Client.prototype._onMessage, lines 267-292.  `none` models a
`JSON.parse` failure.  A `broadcast` update goes straight to
`onBroadcast`; otherwise the update's id is looked up in the pending
table, the entry deleted, and the callback (if any) invoked with the full
update, else `onError('Received response for missing request')`. -/
def onMessageStep (data : Option Update) (s : ClientState) :
    ClientState × List Effect :=
  match data with
  | none => (s, [.onError "parse error"])
  | some u =>
    if u.nes = "broadcast" then
      (s, [.onBroadcast u.message])
    else
      let found := u.id.bind (fun i => assocGet i s.requests)
      let s2 : ClientState :=
        { s with requests := match u.id with
                             | some i => assocDel i s.requests
                             | none => s.requests }
      match found with
      | none => (s2, [.onError "Received response for missing request"])
      | some c => (s2, [.cb c (.update u)])

/-- One externally triggered event on the client. -/
inductive Event where
  | send (label : Nat) (stringifyOk sendOk : Bool)
  | message (data : Option Update)
  | close
deriving DecidableEq, Repr

/-- Step function dispatching one event. -/
def step (s : ClientState) (e : Event) : ClientState × List Effect :=
  match e with
  | .send label so wo => sendStep label so wo s
  | .message d => onMessageStep d s
  | .close => onCloseStep s

/-- Run a sequence of events, accumulating effects in order. -/
def run (s : ClientState) : List Event → ClientState × List Effect
  | [] => (s, [])
  | e :: es =>
    let p := step s e
    let q := run p.1 es
    (q.1, p.2 ++ q.2)

/-- State of a freshly constructed client whose transport just opened:
`_ids` is 0 (constructor, line 45), the table is empty (line 46). -/
def clientInit (rec : Option Reconnection) : ClientState :=
  { wsOpen := true, ids := 0, requests := [], reconnection := rec }

/-- JavaScript `x || d` on an optional number: absent, and the falsy 0,
both yield the default. -/
def jsOrNat : Option Nat → Nat → Nat
  | none, d => d
  | some v, d => if v = 0 then d else v

/-- Options object accepted by Client.prototype.connect. -/
structure ConnectOptions where
  reconnect : Option Bool
  delay : Option Nat
  maxDelay : Option Nat
  auth : Option String
deriving DecidableEq, Repr

/-- Client.prototype.connect, lines 62-72: `options.reconnect !== false`
enables the policy with `wait: 0`, `delay: options.delay || 1000`,
`maxDelay: options.maxDelay || 5000`; otherwise the policy is null. -/
def connectReconnection (o : ConnectOptions) : Option Reconnection :=
  if o.reconnect = some false then none
  else some { wait := 0,
              delay := jsOrNat o.delay 1000,
              maxDelay := jsOrNat o.maxDelay 5000,
              auth := o.auth }

/-- Client.prototype.disconnect, line 121: `this._reconnection = null`. -/
def disconnectReconnection (_r : Option Reconnection) : Option Reconnection :=
  none

/-- What the `setTimeout` callback of `_reconnect` (lines 163-172) does
when it fires, as a function of `self._reconnection` at fire time. -/
inductive TimerFire where
  | threw (msg : String)
  | connectAttempt (auth : Option String)
deriving DecidableEq, Repr

/-- The timer body evaluates `self._reconnection.auth` with no preceding
null check: when `_reconnection` is null at fire time the member access
throws a TypeError out of the timer callback before `_connect` is
reached; otherwise `_connect` is called with the stored credential. -/
def reconnectTimerFire : Option Reconnection → TimerFire
  | none => .threw "TypeError: member access on null reconnection"
  | some r => .connectAttempt r.auth

/-- Iterate `_reconnect` through k consecutive failed attempts. -/
def reconnectIter (r : Reconnection) : Nat → Reconnection
  | 0 => r
  | k + 1 => (reconnectStep (reconnectIter r k)).1

/-- Outcome of the closure `Client.prototype.request` (lines 196-209) or
`Client.prototype.authenticate` (lines 252-264) passes to `_send`:
either the application callback fires (with some argument shape), the
general error hook fires, or a TypeError escapes. -/
inductive HandlerResult where
  | cbErr (e : String)
  | cbFull (e : Option String) (p : Option Payload) (sc : Option Int) (h : Option Nat)
  | authCb (e : Option String)
  | hookErr (m : String)
  | threw (m : String)
deriving DecidableEq, Repr

/-- JavaScript truthiness of `update.statusCode >= 400 &&
update.statusCode <= 599` when statusCode may be undefined (comparisons
with undefined are false). -/
def jsStatusErr : Option Int → Bool
  | none => false
  | some n => decide (400 ≤ n) && decide (n ≤ 599)

/-- The response closure of Client.prototype.request, lines 196-209:
`callback(err)` on a send-level error; `onError` on a non-`response`
kind; otherwise synthesize `new Error(update.payload.message)` exactly
for status codes 400..599 (a TypeError escapes if payload is absent
there) and call `callback(error, update.payload, update.statusCode,
update.headers)`. -/
def requestHandler (err : Option String) (u : Update) : HandlerResult :=
  match err with
  | some e => .cbErr e
  | none =>
    if u.nes ≠ "response" then
      .hookErr ("Received unexpected response type: " ++ u.nes)
    else
      if jsStatusErr u.statusCode then
        match u.payload with
        | none => .threw "TypeError: payload is undefined"
        | some p => .cbFull (some p.message) u.payload u.statusCode u.headers
      else
        .cbFull none u.payload u.statusCode u.headers

/-- The response closure of Client.prototype.authenticate, lines 252-264:
`callback(err)` on a send-level error; `onError` on a non-`auth` kind;
otherwise `callback(update.error ? new Error(update.error) : null)`
(the empty string is falsy). -/
def authHandler (err : Option String) (u : Update) : HandlerResult :=
  match err with
  | some e => .cbErr e
  | none =>
    if u.nes ≠ "auth" then
      .hookErr ("Received unexpected response type: " ++ u.nes)
    else
      match u.error with
      | some e => if e = "" then .authCb none else .authCb (some e)
      | none => .authCb none

/-- Argument of Client.prototype.request: a bare path string or an
options object. -/
structure RequestOptions where
  method : Option String
  path : Option String
  headers : Option Nat
  payload : Option Payload
deriving DecidableEq, Repr

/-- Input to Client.prototype.request. -/
inductive RequestInput where
  | path (p : String)
  | options (o : RequestOptions)
deriving DecidableEq, Repr

/-- Lines 178-183: a bare path is normalized to `method: GET, path`. -/
def normalizeOptions : RequestInput → RequestOptions
  | .path p => { method := some "GET", path := some p, headers := none, payload := none }
  | .options o => o

/-- Outbound request message built at lines 187-194. -/
structure OutboundRequest where
  id : Nat
  nes : String
  method : Option String
  path : Option String
  headers : Option Nat
  payload : Option Payload
deriving DecidableEq, Repr

/-- The outbound message Client.prototype.request hands to `_send`. -/
def requestMessage (i : RequestInput) : OutboundRequest :=
  let o := normalizeOptions i
  { id := 0, nes := "request", method := o.method, path := o.path,
    headers := o.headers, payload := o.payload }

/-- The full observable content of a `request` call before `_send`: the
outbound message plus the response closure it registers (which does not
depend on the options). -/
def requestCall (i : RequestInput) :
    OutboundRequest × (Option String → Update → HandlerResult) :=
  (requestMessage i, requestHandler)

/-! ### Association-list lemmas -/

/-- Keys of the pending table. -/
def keys (l : List (Nat × Nat)) : List Nat := l.map Prod.fst

/-- Does an effect invoke the callback with label c? -/
def isCbFor (c : Nat) : Effect → Bool
  | .cb c2 _ => c2 == c
  | _ => false

/-- Number of invocations of callback label c in an effect list. -/
def countCb (c : Nat) (effs : List Effect) : Nat := effs.countP (isCbFor c)

/-- Is an event a send of callback label c? -/
def isSendFor (c : Nat) : Event → Bool
  | .send c2 _ _ => c2 == c
  | _ => false

/-- Number of send events for callback label c. -/
def sendCount (c : Nat) (es : List Event) : Nat := es.countP (isSendFor c)

/-- Does a table entry hold callback label c? -/
def valIs (c : Nat) : Nat × Nat → Bool := fun p => p.2 == c

/-- Number of pending entries holding callback label c. -/
def pendingCount (c : Nat) (l : List (Nat × Nat)) : Nat := l.countP (valIs c)

/-- Well-formedness of the client state: pending keys are distinct, and
every key is positive and at most the current counter value. -/
def TableWF (s : ClientState) : Prop :=
  (keys s.requests).Nodup ∧ ∀ p ∈ s.requests, 1 ≤ p.1 ∧ p.1 ≤ s.ids

instance (s : ClientState) : Decidable (TableWF s) := by
  unfold TableWF; infer_instance

/-- Is an effect a callback invocation at all? -/
def isCb : Effect → Bool
  | .cb _ _ => true
  | _ => false

/-- A concrete broadcast update (kind `broadcast`, payload 42, no id). -/
def bcastUpdate : Update :=
  { nes := "broadcast", id := none, statusCode := none, payload := none,
    headers := none, message := some 42, error := none }

/-- A concrete response update correlated to id 1. -/
def respUpdate1 : Update :=
  { nes := "response", id := some 1, statusCode := some 200,
    payload := some { message := "ok" }, headers := none, message := none,
    error := none }

/-- A concrete response update correlated to id 2. -/
def respUpdate2 : Update :=
  { nes := "response", id := some 2, statusCode := some 200,
    payload := some { message := "ok" }, headers := none, message := none,
    error := none }

/-- A concrete update of an unexpected kind, correlated to id 1. -/
def oddUpdate : Update :=
  { nes := "other", id := some 1, statusCode := none, payload := none,
    headers := none, message := none, error := none }

/-- Two requests answered out of order: callbacks 10 and 20 are sent,
then the response for id 2 arrives before the response for id 1. -/
def demoEvents : List Event :=
  [.send 10 true true, .send 20 true true,
   .message (some respUpdate2), .message (some respUpdate1)]

/-- A concrete state with one pending request: id 1, callback label 10. -/
def pendingOneState : ClientState :=
  { wsOpen := true, ids := 1, requests := [(1, 10)], reconnection := none }

theorem assocGet_none_of_not_mem {k : Nat} {l : List (Nat × Nat)}
    (h : k ∉ keys l) : assocGet k l = none := by
  induction l with
  | nil => rfl
  | cons p t ih =>
    simp only [keys, List.map_cons, List.mem_cons, not_or] at h
    simp only [assocGet]
    rw [if_neg (fun hk => h.1 hk.symm)]
    exact ih h.2

theorem assocDel_of_get_none {k : Nat} {l : List (Nat × Nat)}
    (h : assocGet k l = none) : assocDel k l = l := by
  induction l with
  | nil => rfl
  | cons p t ih =>
    simp only [assocGet] at h
    simp only [assocDel]
    split
    · next hk => rw [if_pos hk] at h; exact absurd h (by simp)
    · next hk => rw [if_neg hk] at h; rw [ih h]

theorem assocSet_fresh {k : Nat} {l : List (Nat × Nat)} (v : Nat)
    (h : k ∉ keys l) : assocSet k v l = l ++ [(k, v)] := by
  induction l with
  | nil => rfl
  | cons p t ih =>
    simp only [keys, List.map_cons, List.mem_cons, not_or] at h
    simp only [assocSet]
    rw [if_neg (fun hk => h.1 hk.symm), ih h.2]
    rfl

theorem assocDel_append_self {k : Nat} {l : List (Nat × Nat)} (v : Nat)
    (h : k ∉ keys l) : assocDel k (l ++ [(k, v)]) = l := by
  induction l with
  | nil => simp [assocDel]
  | cons p t ih =>
    simp only [keys, List.map_cons, List.mem_cons, not_or] at h
    show assocDel k (p :: (t ++ [(k, v)])) = p :: t
    simp only [assocDel]
    rw [if_neg (fun hk => h.1 hk.symm), ih h.2]

theorem assocDel_assocSet_fresh {k : Nat} {l : List (Nat × Nat)} (v : Nat)
    (h : k ∉ keys l) : assocDel k (assocSet k v l) = l := by
  rw [assocSet_fresh v h, assocDel_append_self v h]

theorem countP_assocDel {k v : Nat} {l : List (Nat × Nat)} (q : Nat × Nat → Bool)
    (h : assocGet k l = some v) :
    (assocDel k l).countP q + (if q (k, v) then 1 else 0) = l.countP q := by
  induction l with
  | nil => exact absurd h (by simp [assocGet])
  | cons p t ih =>
    simp only [assocGet] at h
    simp only [assocDel]
    by_cases hk : p.1 = k
    · rw [if_pos hk] at h ⊢
      have hv : p.2 = v := by injection h
      have hp : (k, v) = p := by
        obtain ⟨p1, p2⟩ := p
        simp only at hk hv
        rw [hk, hv]
      rw [List.countP_cons, hp]
    · rw [if_neg hk] at h ⊢
      simp only [List.countP_cons]
      have := ih h
      omega

theorem mem_of_mem_assocDel {k : Nat} {p : Nat × Nat} {l : List (Nat × Nat)}
    (h : p ∈ assocDel k l) : p ∈ l := by
  induction l with
  | nil => exact absurd h (by simp [assocDel])
  | cons q t ih =>
    simp only [assocDel] at h
    split at h
    · exact List.mem_cons_of_mem q h
    · rcases List.mem_cons.mp h with h1 | h2
      · exact h1 ▸ List.mem_cons_self q t
      · exact List.mem_cons_of_mem q (ih h2)

theorem mem_assocDel_of_ne {k i c : Nat} {l : List (Nat × Nat)}
    (h : (i, c) ∈ l) (hne : i ≠ k) : (i, c) ∈ assocDel k l := by
  induction l with
  | nil => exact absurd h (by simp)
  | cons q t ih =>
    simp only [assocDel]
    rcases List.mem_cons.mp h with h1 | h2
    · rw [if_neg (by rw [← h1]; exact hne)]
      exact h1 ▸ List.mem_cons_self _ _
    · split
      · exact h2
      · exact List.mem_cons_of_mem q (ih h2)

theorem not_mem_assocDel_self {i c : Nat} {l : List (Nat × Nat)}
    (hnd : (keys l).Nodup) : (i, c) ∉ assocDel i l := by
  induction l with
  | nil => simp [assocDel]
  | cons q t ih =>
    simp only [keys, List.map_cons, List.nodup_cons] at hnd
    simp only [assocDel]
    split
    · next hk =>
      intro hm
      exact hnd.1 (hk ▸ List.mem_map.mpr ⟨(i, c), hm, rfl⟩)
    · next hk =>
      intro hm
      rcases List.mem_cons.mp hm with h1 | h2
      · exact hk (by rw [← h1])
      · exact ih hnd.2 h2

theorem assocGet_of_mem {i c : Nat} {l : List (Nat × Nat)}
    (hnd : (keys l).Nodup) (h : (i, c) ∈ l) : assocGet i l = some c := by
  induction l with
  | nil => exact absurd h (by simp)
  | cons q t ih =>
    simp only [keys, List.map_cons, List.nodup_cons] at hnd
    simp only [assocGet]
    rcases List.mem_cons.mp h with h1 | h2
    · rw [← h1]; simp
    · split
      · next hk =>
        exact absurd (hk ▸ List.mem_map.mpr ⟨(i, c), h2, rfl⟩) hnd.1
      · exact ih hnd.2 h2

theorem sublist_assocDel (k : Nat) (l : List (Nat × Nat)) :
    (assocDel k l).Sublist l := by
  induction l with
  | nil => simp [assocDel]
  | cons q t ih =>
    simp only [assocDel]
    split
    · exact List.sublist_cons_self q t
    · exact List.Sublist.cons₂ q ih

theorem keys_nodup_assocDel {k : Nat} {l : List (Nat × Nat)}
    (hnd : (keys l).Nodup) : (keys (assocDel k l)).Nodup :=
  ((sublist_assocDel k l).map Prod.fst).nodup hnd

theorem not_mem_keys_of_bound {k : Nat} {l : List (Nat × Nat)} {n : Nat}
    (hb : ∀ p ∈ l, p.1 ≤ n) (hk : n < k) : k ∉ keys l := by
  intro hm
  rcases List.mem_map.mp hm with ⟨p, hp, hpk⟩
  exact absurd (hpk ▸ hb p hp) (by omega)

/-! ### Characterization of the step functions -/

theorem sendStep_closed {s : ClientState} (label : Nat) (so wo : Bool)
    (h : s.wsOpen = false) :
    sendStep label so wo s = (s, [.cb label (.fail "Disconnected")]) := by
  simp [sendStep, h]

theorem sendStep_stringifyFail {s : ClientState} (label : Nat) (wo : Bool)
    (h : s.wsOpen = true) :
    sendStep label false wo s
      = ({ s with ids := s.ids + 1 }, [.cb label (.fail "stringify error")]) := by
  simp [sendStep, h]

theorem sendStep_ok {s : ClientState} (label : Nat) (h : s.wsOpen = true) :
    sendStep label true true s
      = ({ s with ids := s.ids + 1,
                  requests := assocSet (s.ids + 1) label s.requests }, []) := by
  simp [sendStep, h]

theorem sendStep_throw {s : ClientState} (label : Nat) (h : s.wsOpen = true) :
    sendStep label true false s
      = ({ s with ids := s.ids + 1,
                  requests := assocDel (s.ids + 1)
                    (assocSet (s.ids + 1) label s.requests) },
         [.cb label (.fail "send error")]) := by
  simp [sendStep, h]

theorem onMessageStep_parseFail (s : ClientState) :
    onMessageStep none s = (s, [.onError "parse error"]) := rfl

theorem onMessageStep_broadcast {u : Update} (s : ClientState)
    (h : u.nes = "broadcast") :
    onMessageStep (some u) s = (s, [.onBroadcast u.message]) := by
  simp [onMessageStep, h]

theorem onMessageStep_noId {u : Update} (s : ClientState)
    (h : ¬ u.nes = "broadcast") (hid : u.id = none) :
    onMessageStep (some u) s
      = (s, [.onError "Received response for missing request"]) := by
  simp [onMessageStep, h, hid]

theorem onMessageStep_missing {u : Update} {i : Nat} (s : ClientState)
    (h : ¬ u.nes = "broadcast") (hid : u.id = some i)
    (hg : assocGet i s.requests = none) :
    onMessageStep (some u) s
      = ({ s with requests := assocDel i s.requests },
         [.onError "Received response for missing request"]) := by
  simp [onMessageStep, h, hid, hg]

theorem onMessageStep_found {u : Update} {i c : Nat} (s : ClientState)
    (h : ¬ u.nes = "broadcast") (hid : u.id = some i)
    (hg : assocGet i s.requests = some c) :
    onMessageStep (some u) s
      = ({ s with requests := assocDel i s.requests }, [.cb c (.update u)]) := by
  simp [onMessageStep, h, hid, hg]

theorem onCloseStep_noRec {s : ClientState} (h : s.reconnection = none) :
    onCloseStep s
      = ({ s with wsOpen := false, requests := [] },
         s.requests.map (fun p => Effect.cb p.2 (.fail "Disconnected"))) := by
  simp [onCloseStep, clientReconnect, h]

theorem onCloseStep_rec {s : ClientState} {r : Reconnection}
    (h : s.reconnection = some r) :
    onCloseStep s
      = ({ s with wsOpen := false, requests := [],
                  reconnection := some (reconnectStep r).1 },
         s.requests.map (fun p => Effect.cb p.2 (.fail "Disconnected"))
           ++ [.setTimeout (reconnectStep r).2]) := by
  simp [onCloseStep, clientReconnect, h]

/-! ### Counting lemmas -/

theorem countCb_nil (c : Nat) : countCb c [] = 0 := rfl

theorem countCb_append (c : Nat) (a b : List Effect) :
    countCb c (a ++ b) = countCb c a + countCb c b :=
  List.countP_append _ _ _

theorem countCb_cb (c c2 : Nat) (a : CbArg) :
    countCb c [.cb c2 a] = if c2 = c then 1 else 0 := by
  simp [countCb, List.countP_cons, isCbFor]

theorem countCb_onError (c : Nat) (m : String) : countCb c [.onError m] = 0 := rfl

theorem countCb_onBroadcast (c : Nat) (m : Option Nat) :
    countCb c [.onBroadcast m] = 0 := rfl

theorem countCb_setTimeout (c : Nat) (ms : Nat) :
    countCb c [.setTimeout ms] = 0 := rfl

theorem countCb_flush (c : Nat) (l : List (Nat × Nat)) :
    countCb c (l.map (fun p => Effect.cb p.2 (.fail "Disconnected")))
      = pendingCount c l := by
  unfold countCb pendingCount
  rw [List.countP_map]
  rfl

theorem pendingCount_append (c : Nat) (a b : List (Nat × Nat)) :
    pendingCount c (a ++ b) = pendingCount c a + pendingCount c b :=
  List.countP_append _ _ _

theorem pendingCount_single (c k v : Nat) :
    pendingCount c [(k, v)] = if v = c then 1 else 0 := by
  simp [pendingCount, List.countP_cons, valIs]

theorem sendCount_cons (c : Nat) (e : Event) (es : List Event) :
    sendCount c (e :: es)
      = sendCount c es + (if isSendFor c e then 1 else 0) :=
  List.countP_cons _ _ _


/-! ### Invariant preservation and callback conservation -/

theorem wf_sendStep {s : ClientState} (label : Nat) (so wo : Bool)
    (h : TableWF s) : TableWF (sendStep label so wo s).1 := by
  obtain ⟨hnd, hb⟩ := h
  by_cases hw : s.wsOpen = false
  · rw [sendStep_closed label so wo hw]
    exact ⟨hnd, hb⟩
  · have hw2 : s.wsOpen = true := by
      cases hws : s.wsOpen
      · exact absurd hws hw
      · rfl
    have hfresh : s.ids + 1 ∉ keys s.requests :=
      not_mem_keys_of_bound (fun p hp => (hb p hp).2) (Nat.lt_succ_self _)
    have hbound : ∀ p ∈ s.requests, 1 ≤ p.1 ∧ p.1 ≤ s.ids + 1 :=
      fun p hp => ⟨(hb p hp).1, Nat.le_succ_of_le (hb p hp).2⟩
    cases so with
    | false =>
      rw [sendStep_stringifyFail label wo hw2]
      exact ⟨hnd, hbound⟩
    | true =>
      cases wo with
      | true =>
        rw [sendStep_ok label hw2]
        dsimp only
        refine ⟨?_, ?_⟩
        · show (keys (assocSet (s.ids + 1) label s.requests)).Nodup
          rw [assocSet_fresh label hfresh]
          simp only [keys, List.map_append, List.map_cons, List.map_nil]
          rw [List.nodup_append]
          refine ⟨hnd, List.nodup_singleton _, ?_⟩
          intro a ha hcon
          simp only [List.mem_singleton] at hcon
          exact hfresh (hcon ▸ ha)
        · intro p hp
          rw [assocSet_fresh label hfresh] at hp
          rcases List.mem_append.mp hp with h1 | h2
          · have := hbound p h1
            dsimp only
            omega
          · simp only [List.mem_singleton] at h2
            subst h2
            dsimp only
            omega
      | false =>
        rw [sendStep_throw label hw2]
        dsimp only
        rw [assocDel_assocSet_fresh label hfresh]
        exact ⟨hnd, hbound⟩

theorem wf_onMessageStep {s : ClientState} (d : Option Update)
    (h : TableWF s) : TableWF (onMessageStep d s).1 := by
  obtain ⟨hnd, hb⟩ := h
  cases d with
  | none => exact ⟨hnd, hb⟩
  | some u =>
    by_cases hbr : u.nes = "broadcast"
    · rw [onMessageStep_broadcast s hbr]
      exact ⟨hnd, hb⟩
    · cases hid : u.id with
      | none =>
        rw [onMessageStep_noId s hbr hid]
        exact ⟨hnd, hb⟩
      | some i =>
        have hwf : TableWF { s with requests := assocDel i s.requests } :=
          ⟨keys_nodup_assocDel hnd,
           fun p hp => hb p (mem_of_mem_assocDel hp)⟩
        cases hg : assocGet i s.requests with
        | none => rw [onMessageStep_missing s hbr hid hg]; exact hwf
        | some c => rw [onMessageStep_found s hbr hid hg]; exact hwf

theorem wf_onCloseStep {s : ClientState} (_h : TableWF s) :
    TableWF (onCloseStep s).1 := by
  cases hr : s.reconnection with
  | none =>
    rw [onCloseStep_noRec hr]
    exact ⟨List.nodup_nil, by simp⟩
  | some r =>
    rw [onCloseStep_rec hr]
    exact ⟨List.nodup_nil, by simp⟩

theorem wf_step {s : ClientState} (e : Event) (h : TableWF s) :
    TableWF (step s e).1 := by
  cases e with
  | send label so wo => exact wf_sendStep label so wo h
  | message d => exact wf_onMessageStep d h
  | close => exact wf_onCloseStep h

theorem wf_run {s : ClientState} (es : List Event) (h : TableWF s) :
    TableWF (run s es).1 := by
  induction es generalizing s with
  | nil => exact h
  | cons e es ih => exact ih (wf_step e h)

theorem step_conservation {s : ClientState} (e : Event) (c : Nat)
    (h : TableWF s) :
    countCb c (step s e).2 + pendingCount c (step s e).1.requests
      = pendingCount c s.requests + (if isSendFor c e then 1 else 0) := by
  obtain ⟨hnd, hb⟩ := h
  cases e with
  | send label so wo =>
    have hite : (if isSendFor c (.send label so wo) then 1 else 0)
        = (if label = c then 1 else 0) := by
      simp [isSendFor]
    rw [hite]
    show countCb c (sendStep label so wo s).2
        + pendingCount c (sendStep label so wo s).1.requests
      = pendingCount c s.requests + (if label = c then 1 else 0)
    by_cases hw : s.wsOpen = false
    · rw [sendStep_closed label so wo hw, countCb_cb]
      dsimp only
      omega
    · have hw2 : s.wsOpen = true := by
        cases hws : s.wsOpen
        · exact absurd hws hw
        · rfl
      have hfresh : s.ids + 1 ∉ keys s.requests :=
        not_mem_keys_of_bound (fun p hp => (hb p hp).2) (Nat.lt_succ_self _)
      cases so with
      | false =>
        rw [sendStep_stringifyFail label wo hw2, countCb_cb]
        dsimp only
        omega
      | true =>
        cases wo with
        | true =>
          rw [sendStep_ok label hw2]
          dsimp only
          rw [countCb_nil, assocSet_fresh label hfresh, pendingCount_append,
            pendingCount_single]
          omega
        | false =>
          rw [sendStep_throw label hw2]
          dsimp only
          rw [assocDel_assocSet_fresh label hfresh, countCb_cb]
          omega
  | message d =>
    have hite : (if isSendFor c (.message d) then 1 else 0) = 0 := by
      simp [isSendFor]
    rw [hite]
    show countCb c (onMessageStep d s).2
        + pendingCount c (onMessageStep d s).1.requests
      = pendingCount c s.requests + 0
    cases d with
    | none =>
      rw [onMessageStep_parseFail, countCb_onError]
      dsimp only
      omega
    | some u =>
      by_cases hbr : u.nes = "broadcast"
      · rw [onMessageStep_broadcast s hbr, countCb_onBroadcast]
        dsimp only
        omega
      · cases hid : u.id with
        | none =>
          rw [onMessageStep_noId s hbr hid, countCb_onError]
          dsimp only
          omega
        | some i =>
          cases hg : assocGet i s.requests with
          | none =>
            rw [onMessageStep_missing s hbr hid hg, countCb_onError]
            dsimp only
            rw [assocDel_of_get_none hg]
            omega
          | some c2 =>
            rw [onMessageStep_found s hbr hid hg, countCb_cb]
            dsimp only
            have hdel := countP_assocDel (valIs c) hg
            have hval : (if valIs c (i, c2) then 1 else 0)
                = (if c2 = c then 1 else 0) := by
              simp [valIs]
            rw [hval] at hdel
            unfold pendingCount
            omega
  | close =>
    have hite : (if isSendFor c Event.close then 1 else 0) = 0 := by
      simp [isSendFor]
    rw [hite]
    show countCb c (onCloseStep s).2 + pendingCount c (onCloseStep s).1.requests
      = pendingCount c s.requests + 0
    cases hr : s.reconnection with
    | none =>
      rw [onCloseStep_noRec hr, countCb_flush]
      dsimp only
      simp [pendingCount]
    | some r =>
      rw [onCloseStep_rec hr, countCb_append, countCb_flush, countCb_setTimeout]
      dsimp only
      simp [pendingCount]

theorem run_conservation {s : ClientState} (es : List Event) (c : Nat)
    (h : TableWF s) :
    countCb c (run s es).2 + pendingCount c (run s es).1.requests
      = pendingCount c s.requests + sendCount c es := by
  induction es generalizing s with
  | nil => simp [run, countCb_nil, sendCount, List.countP_nil]
  | cons e es ih =>
    have h1 := step_conservation e c h
    have h2 := ih (wf_step e h)
    show countCb c ((step s e).2 ++ (run (step s e).1 es).2)
        + pendingCount c (run (step s e).1 es).1.requests
      = pendingCount c s.requests + sendCount c (e :: es)
    rw [countCb_append, sendCount_cons]
    omega

/-! ### Further helper lemmas -/

theorem mem_of_assocGet {k v : Nat} {l : List (Nat × Nat)}
    (h : assocGet k l = some v) : (k, v) ∈ l := by
  induction l with
  | nil => exact absurd h (by simp [assocGet])
  | cons p t ih =>
    simp only [assocGet] at h
    by_cases hk : p.1 = k
    · rw [if_pos hk] at h
      have hv : p.2 = v := by injection h
      have hp : (k, v) = p := by
        obtain ⟨p1, p2⟩ := p
        simp only at hk hv
        rw [hk, hv]
      exact hp ▸ List.mem_cons_self p t
    · rw [if_neg hk] at h
      exact List.mem_cons_of_mem p (ih h)

theorem assocGet_append_self {k : Nat} {l : List (Nat × Nat)} (v : Nat)
    (h : k ∉ keys l) : assocGet k (l ++ [(k, v)]) = some v := by
  induction l with
  | nil => simp [assocGet]
  | cons p t ih =>
    simp only [keys, List.map_cons, List.mem_cons, not_or] at h
    show assocGet k (p :: (t ++ [(k, v)])) = some v
    simp only [assocGet]
    rw [if_neg (fun hk => h.1 hk.symm)]
    exact ih h.2

theorem filter_isCb_flush (l : List (Nat × Nat)) :
    (l.map (fun p => Effect.cb p.2 (.fail "Disconnected"))).filter isCb
      = l.map (fun p => Effect.cb p.2 (.fail "Disconnected")) := by
  rw [List.filter_eq_self]
  intro e he
  rcases List.mem_map.mp he with ⟨p, _, hp⟩
  rw [← hp]
  rfl

theorem reconnectIter_wait (d m : Nat) (a : Option String) (k : Nat) :
    reconnectIter ⟨0, d, m, a⟩ k = ⟨k * d, d, m, a⟩ := by
  induction k with
  | zero => simp [reconnectIter]
  | succ k ih =>
    show (reconnectStep (reconnectIter ⟨0, d, m, a⟩ k)).1 = _
    rw [ih]
    show (⟨k * d + d, d, m, a⟩ : Reconnection) = _
    rw [Nat.succ_mul]

/-! ### Claims -/

/-- C2: when the transport closes with N pending requests, `_onClose`
empties the pending table and the callback invocations it emits are
exactly one per removed entry, each with the Disconnected failure, in
table order; nothing else the close emits is a callback invocation. -/
theorem C2_close_flushes_all_pending (s : ClientState) :
    (onCloseStep s).1.requests = []
    ∧ (onCloseStep s).2.filter isCb
        = s.requests.map (fun p => Effect.cb p.2 (.fail "Disconnected")) := by
  cases hr : s.reconnection with
  | none =>
    rw [onCloseStep_noRec hr]
    exact ⟨rfl, filter_isCb_flush s.requests⟩
  | some r =>
    rw [onCloseStep_rec hr]
    refine ⟨rfl, ?_⟩
    rw [List.filter_append, filter_isCb_flush]
    show _ ++ List.filter isCb [.setTimeout (reconnectStep r).2] = _
    simp [isCb]

/-- C4: the code bug behind the claim.  `disconnect()` nulls the
reconnection policy; when the backoff timer then fires, the timer body
dereferences `self._reconnection.auth` without any liveness check, so it
throws a TypeError out of the event boundary instead of checking the
policy — no new transport is opened, but only because of the throw. -/
theorem C4_disconnect_during_backoff (r : Option Reconnection) :
    reconnectTimerFire (disconnectReconnection r)
      = TimerFire.threw "TypeError: member access on null reconnection"
    ∧ ∀ a, reconnectTimerFire (disconnectReconnection r)
        ≠ TimerFire.connectAttempt a := by
  refine ⟨rfl, ?_⟩
  intro a h
  exact TimerFire.noConfusion h

/-- C6: for a correlated `response` update delivered to a request, the
callback receives a synthesized failure exactly when the status code is
in 400..599 inclusive, with the payload's message as the failure text,
and in all cases receives (failure-or-null, payload, statusCode,
headers); in particular statusCode 404 with message `not found` yields
(Error, payload, 404, headers). -/
theorem C6_status_code_range :
    (∀ (p : Payload) (sc : Option Int) (hd : Option Nat) (idv : Option Nat)
        (msg : Option Nat) (er : Option String),
        requestHandler none
          { nes := "response", id := idv, statusCode := sc,
            payload := some p, headers := hd, message := msg, error := er }
          = .cbFull (if jsStatusErr sc then some p.message else none)
              (some p) sc hd)
    ∧ (∀ sc : Option Int,
        jsStatusErr sc = true ↔ ∃ n, sc = some n ∧ 400 ≤ n ∧ n ≤ 599)
    ∧ requestHandler none
        { nes := "response", id := some 1, statusCode := some 404,
          payload := some { message := "not found" }, headers := some 7,
          message := none, error := none }
        = .cbFull (some "not found") (some { message := "not found" })
            (some 404) (some 7) := by
  refine ⟨?_, ?_, ?_⟩
  · intro p sc hd idv msg er
    by_cases h : jsStatusErr sc = true
    · simp [requestHandler, h]
    · simp [requestHandler, h]
  · intro sc
    cases sc with
    | none => simp [jsStatusErr]
    | some n =>
      simp only [jsStatusErr, Bool.and_eq_true, decide_eq_true_eq,
        Option.some.injEq]
      constructor
      · intro h
        exact ⟨n, rfl, h.1, h.2⟩
      · rintro ⟨m, rfl, h1, h2⟩
        exact ⟨h1, h2⟩
  · rfl

/-- C7: an inbound `broadcast` update is delivered to the broadcast hook
with its message payload and leaves the client state (in particular the
pending-request table) completely untouched, with no other effect. -/
theorem C7_broadcast_bypasses_table (s : ClientState) (u : Update)
    (h : u.nes = "broadcast") :
    onMessageStep (some u) s = (s, [.onBroadcast u.message])
    ∧ (onMessageStep (some u) s).1.requests = s.requests := by
  refine ⟨onMessageStep_broadcast s h, ?_⟩
  rw [onMessageStep_broadcast s h]

/-- C7 witness: a broadcast delivered while no request is pending. -/
theorem C7_broadcast_bypasses_table_witness :
    onMessageStep (some bcastUpdate) (clientInit none)
      = (clientInit none, [.onBroadcast (some 42)])
    ∧ (clientInit none).requests = [] :=
  ⟨(C7_broadcast_bypasses_table (clientInit none) bcastUpdate rfl).1, rfl⟩

/-- C8: `request(path)` and `request(\x7bmethod: GET, path\x7d)` produce
the same outbound request message and register the same response
closure. -/
theorem C8_bare_path_equivalence (p : String) :
    requestCall (.path p)
      = requestCall (.options
          { method := some "GET", path := some p,
            headers := none, payload := none }) := rfl

/-- C9: `connect` defaults the backoff parameters by JavaScript
falsiness (`options.delay || 1000`, `options.maxDelay || 5000`), so a
configured 0 (like an absent value) silently becomes the default and a
zero backoff delay cannot be configured. -/
theorem C9_zero_delay_uses_defaults (o : ConnectOptions)
    (h : o.reconnect ≠ some false) :
    ∃ r, connectReconnection o = some r
      ∧ r.wait = 0
      ∧ (o.delay = some 0 ∨ o.delay = none → r.delay = 1000)
      ∧ (o.maxDelay = some 0 ∨ o.maxDelay = none → r.maxDelay = 5000)
      ∧ r.delay ≠ 0 ∧ r.maxDelay ≠ 0 := by
  refine ⟨_, by rw [connectReconnection, if_neg h], rfl, ?_, ?_, ?_, ?_⟩
  · rintro (hd | hd) <;> simp [jsOrNat, hd]
  · rintro (hd | hd) <;> simp [jsOrNat, hd]
  · cases hd : o.delay with
    | none => simp [jsOrNat]
    | some v =>
      by_cases hv : v = 0
      · simp [jsOrNat, hv]
      · simp [jsOrNat, hv]
  · cases hd : o.maxDelay with
    | none => simp [jsOrNat]
    | some v =>
      by_cases hv : v = 0
      · simp [jsOrNat, hv]
      · simp [jsOrNat, hv]

/-- C9 witness: both parameters supplied as 0 yield the defaults. -/
theorem C9_zero_delay_uses_defaults_witness :
    ∃ r, connectReconnection ⟨none, some 0, some 0, none⟩ = some r
      ∧ r.wait = 0
      ∧ (some 0 = some 0 ∨ some 0 = none → r.delay = 1000)
      ∧ (some 0 = some 0 ∨ some 0 = none → r.maxDelay = 5000)
      ∧ r.delay ≠ 0 ∧ r.maxDelay ≠ 0 :=
  C9_zero_delay_uses_defaults ⟨none, some 0, some 0, none⟩ (by decide)

/-- C3: from a fresh connect (wait 0, increment d, cap m) the k-th
consecutive failed-reconnect wait is min(k*d, m); with d=1000 and m=5000
the schedule is 1000, 2000, 3000, 4000, 5000, 5000, 5000, ...; each
`_reconnect` cycle only grows the accumulated wait by the increment,
`connect` with reconnection enabled resets it to 0, and `disconnect`
discards the policy altogether. -/
theorem C3_backoff_linear_capped :
    (∀ (d m : Nat) (a : Option String) (k : Nat), 1 ≤ k →
        (reconnectStep (reconnectIter ⟨0, d, m, a⟩ (k - 1))).2 = min (k * d) m)
    ∧ ((List.range 7).map
          (fun k => (reconnectStep (reconnectIter ⟨0, 1000, 5000, none⟩ k)).2)
        = [1000, 2000, 3000, 4000, 5000, 5000, 5000])
    ∧ (∀ o : ConnectOptions, o.reconnect ≠ some false →
        ∃ r, connectReconnection o = some r ∧ r.wait = 0)
    ∧ (∀ r : Reconnection, (reconnectStep r).1.wait = r.wait + r.delay)
    ∧ (∀ r : Option Reconnection, disconnectReconnection r = none) := by
  refine ⟨?_, by decide, ?_, fun r => rfl, fun r => rfl⟩
  · intro d m a k hk
    obtain ⟨j, rfl⟩ : ∃ j, k = j + 1 := ⟨k - 1, by omega⟩
    have hj : j + 1 - 1 = j := rfl
    rw [hj, reconnectIter_wait]
    show min (j * d + d) m = min ((j + 1) * d) m
    rw [Nat.succ_mul]
  · intro o h
    exact ⟨_, by rw [connectReconnection, if_neg h], rfl⟩

/-- C3 witness: the sixth consecutive wait with d=1000, m=5000 is
min(6000, 5000) = 5000. -/
theorem C3_backoff_linear_capped_witness :
    (reconnectStep (reconnectIter ⟨0, 1000, 5000, none⟩ (6 - 1))).2
      = min (6 * 1000) 5000
    ∧ ∃ r, connectReconnection ⟨none, none, none, some "tok"⟩ = some r
        ∧ r.wait = 0 :=
  ⟨C3_backoff_linear_capped.1 1000 5000 none 6 (by decide),
   C3_backoff_linear_capped.2.2.1 ⟨none, none, none, some "tok"⟩ (by decide)⟩

/-- C5: the error paths of `_send`.  With no open transport the callback
fails immediately with Disconnected and nothing changes; on a stringify
failure the callback gets that failure and no table entry is added; if
the transport send throws, the freshly added entry is removed again,
restoring the table; only on full success does the callback stay
registered under the assigned id. -/
theorem C5_send_error_paths (s : ClientState) (label : Nat) :
    (∀ so wo : Bool, s.wsOpen = false →
        sendStep label so wo s = (s, [.cb label (.fail "Disconnected")]))
    ∧ (∀ wo : Bool, s.wsOpen = true →
        (sendStep label false wo s).1.requests = s.requests
        ∧ (sendStep label false wo s).2 = [.cb label (.fail "stringify error")])
    ∧ (s.wsOpen = true → (∀ p ∈ s.requests, p.1 ≤ s.ids) →
        (sendStep label true false s).1.requests = s.requests
        ∧ (sendStep label true false s).2 = [.cb label (.fail "send error")])
    ∧ (s.wsOpen = true → (∀ p ∈ s.requests, p.1 ≤ s.ids) →
        assocGet (s.ids + 1) (sendStep label true true s).1.requests = some label
        ∧ (sendStep label true true s).2 = []) := by
  refine ⟨?_, ?_, ?_, ?_⟩
  · intro so wo hw
    exact sendStep_closed label so wo hw
  · intro wo hw
    rw [sendStep_stringifyFail label wo hw]
    exact ⟨rfl, rfl⟩
  · intro hw hb
    have hfresh : s.ids + 1 ∉ keys s.requests :=
      not_mem_keys_of_bound hb (Nat.lt_succ_self _)
    rw [sendStep_throw label hw]
    dsimp only
    rw [assocDel_assocSet_fresh label hfresh]
    exact ⟨rfl, rfl⟩
  · intro hw hb
    have hfresh : s.ids + 1 ∉ keys s.requests :=
      not_mem_keys_of_bound hb (Nat.lt_succ_self _)
    rw [sendStep_ok label hw]
    dsimp only
    rw [assocSet_fresh label hfresh]
    exact ⟨assocGet_append_self label hfresh, rfl⟩

/-- C5 witness: the send-throw rollback and the success registration on
a concrete connected client with an empty table. -/
theorem C5_send_error_paths_witness :
    ((sendStep 5 true false (clientInit none)).1.requests
        = (clientInit none).requests
      ∧ (sendStep 5 true false (clientInit none)).2
          = [.cb 5 (.fail "send error")])
    ∧ (assocGet ((clientInit none).ids + 1)
          (sendStep 5 true true (clientInit none)).1.requests = some 5
      ∧ (sendStep 5 true true (clientInit none)).2 = []) :=
  ⟨(C5_send_error_paths (clientInit none) 5).2.2.1 rfl (by simp [clientInit]),
   (C5_send_error_paths (clientInit none) 5).2.2.2 rfl (by simp [clientInit])⟩

/-- C10: a correlated inbound update of an unexpected kind still removes
the pending entry, and the wrapper then reports via the general error
hook without ever invoking the application callback: `requestHandler`
for a non-`response` kind and `authHandler` for a non-`auth` kind both
return only the hook invocation. -/
theorem C10_unexpected_kind_completes_silently :
    (∀ (s : ClientState) (u : Update) (i c : Nat), TableWF s →
        u.nes ≠ "broadcast" → u.id = some i → (i, c) ∈ s.requests →
        (onMessageStep (some u) s).1.requests = assocDel i s.requests
        ∧ (i, c) ∉ (onMessageStep (some u) s).1.requests
        ∧ (onMessageStep (some u) s).2 = [Effect.cb c (.update u)])
    ∧ (∀ u : Update, u.nes ≠ "response" →
        requestHandler none u
          = .hookErr ("Received unexpected response type: " ++ u.nes))
    ∧ (∀ u : Update, u.nes ≠ "auth" →
        authHandler none u
          = .hookErr ("Received unexpected response type: " ++ u.nes)) := by
  refine ⟨?_, ?_, ?_⟩
  · intro s u i c hwf hbr hid hmem
    have hg : assocGet i s.requests = some c := assocGet_of_mem hwf.1 hmem
    rw [onMessageStep_found s hbr hid hg]
    exact ⟨rfl, not_mem_assocDel_self hwf.1, rfl⟩
  · intro u h
    simp [requestHandler, h]
  · intro u h
    simp [authHandler, h]

/-- C10 witness: an update of kind `other` correlated to the single
pending request removes it, and the request wrapper only reports the
unexpected kind. -/
theorem C10_unexpected_kind_completes_silently_witness :
    ((onMessageStep (some oddUpdate) pendingOneState).1.requests
        = assocDel 1 pendingOneState.requests
      ∧ (1, 10) ∉ (onMessageStep (some oddUpdate) pendingOneState).1.requests
      ∧ (onMessageStep (some oddUpdate) pendingOneState).2
          = [Effect.cb 10 (.update oddUpdate)])
    ∧ requestHandler none oddUpdate
        = .hookErr ("Received unexpected response type: " ++ oddUpdate.nes) :=
  ⟨C10_unexpected_kind_completes_silently.1 pendingOneState oddUpdate 1 10
      (by decide) (by decide) rfl (by decide),
   C10_unexpected_kind_completes_silently.2.1 oddUpdate (by decide)⟩

/-- C1: request/authenticate correlation.  (1) A successful `_send` on an
open transport pre-increments the counter and registers the callback
under the new id, which is positive and strictly above every id already
pending (so the first id from a fresh client is 1, id 0 is never a key,
and assigned keys are strictly increasing).  (2) Every run from a fresh
client keeps the table well-formed: keys distinct, positive, bounded by
the counter.  (3) A pending entry survives every event except an inbound
non-broadcast message carrying its id — which removes it and invokes
exactly its callback with that very message — and transport close, which
removes it and invokes its callback with the Disconnected failure.
(4) A callback is only ever invoked with an update whose id is mapped to
that callback in the table, even under out-of-order responses.  (5) Over
any event sequence from a fresh client, the number of invocations of a
callback label plus its remaining pending entries equals the number of
its send calls: each request completes exactly once once its entry
leaves the table. -/
theorem C1_correlator_invariant :
    (∀ (s : ClientState) (label : Nat), TableWF s → s.wsOpen = true →
        (sendStep label true true s).1.ids = s.ids + 1
        ∧ (s.ids + 1, label) ∈ (sendStep label true true s).1.requests
        ∧ 1 ≤ s.ids + 1
        ∧ ∀ p ∈ s.requests, p.1 < s.ids + 1)
    ∧ (∀ (rec : Option Reconnection) (es : List Event),
        TableWF (run (clientInit rec) es).1)
    ∧ (∀ (s : ClientState) (i c : Nat), TableWF s → (i, c) ∈ s.requests →
        (∀ e : Event,
            (∀ u, e = Event.message (some u) →
              u.nes = "broadcast" ∨ u.id ≠ some i) →
            e ≠ Event.close → (i, c) ∈ (step s e).1.requests)
        ∧ (∀ u : Update, u.nes ≠ "broadcast" → u.id = some i →
            (i, c) ∉ (onMessageStep (some u) s).1.requests
            ∧ (onMessageStep (some u) s).2 = [Effect.cb c (.update u)])
        ∧ ((i, c) ∉ (onCloseStep s).1.requests
            ∧ Effect.cb c (.fail "Disconnected") ∈ (onCloseStep s).2))
    ∧ (∀ (s : ClientState) (u : Update) (c : Nat),
        Effect.cb c (.update u) ∈ (onMessageStep (some u) s).2 →
        ∃ i, u.id = some i ∧ (i, c) ∈ s.requests)
    ∧ (∀ (rec : Option Reconnection) (es : List Event) (c : Nat),
        countCb c (run (clientInit rec) es).2
          + pendingCount c (run (clientInit rec) es).1.requests
          = sendCount c es) := by
  have hinitwf : ∀ rec : Option Reconnection, TableWF (clientInit rec) :=
    fun rec => ⟨List.nodup_nil, by simp [clientInit]⟩
  refine ⟨?_, ?_, ?_, ?_, ?_⟩
  · intro s label hwf hw
    have hfresh : s.ids + 1 ∉ keys s.requests :=
      not_mem_keys_of_bound (fun p hp => (hwf.2 p hp).2) (Nat.lt_succ_self _)
    rw [sendStep_ok label hw]
    dsimp only
    refine ⟨rfl, ?_, Nat.succ_le_succ (Nat.zero_le _), ?_⟩
    · rw [assocSet_fresh label hfresh]
      exact List.mem_append_right _ (List.mem_singleton.mpr rfl)
    · intro p hp
      exact Nat.lt_succ_of_le (hwf.2 p hp).2
  · intro rec es
    exact wf_run es (hinitwf rec)
  · intro s i c hwf hmem
    refine ⟨?_, ?_, ?_⟩
    · intro e hmsg hcl
      cases e with
      | send label so wo =>
        show (i, c) ∈ (sendStep label so wo s).1.requests
        by_cases hw : s.wsOpen = false
        · rw [sendStep_closed label so wo hw]
          exact hmem
        · have hw2 : s.wsOpen = true := by
            cases hws : s.wsOpen
            · exact absurd hws hw
            · rfl
          have hfresh : s.ids + 1 ∉ keys s.requests :=
            not_mem_keys_of_bound (fun p hp => (hwf.2 p hp).2)
              (Nat.lt_succ_self _)
          cases so with
          | false =>
            rw [sendStep_stringifyFail label wo hw2]
            exact hmem
          | true =>
            cases wo with
            | true =>
              rw [sendStep_ok label hw2]
              dsimp only
              rw [assocSet_fresh label hfresh]
              exact List.mem_append_left _ hmem
            | false =>
              rw [sendStep_throw label hw2]
              dsimp only
              rw [assocDel_assocSet_fresh label hfresh]
              exact hmem
      | message d =>
        show (i, c) ∈ (onMessageStep d s).1.requests
        cases d with
        | none => exact hmem
        | some u =>
          by_cases hbr : u.nes = "broadcast"
          · rw [onMessageStep_broadcast s hbr]
            exact hmem
          · have hne : u.id ≠ some i := by
              rcases hmsg u rfl with h1 | h2
              · exact absurd h1 hbr
              · exact h2
            cases hid : u.id with
            | none =>
              rw [onMessageStep_noId s hbr hid]
              exact hmem
            | some j =>
              have hji : i ≠ j := fun h => hne (by rw [hid, h])
              cases hg : assocGet j s.requests with
              | none =>
                rw [onMessageStep_missing s hbr hid hg]
                exact mem_assocDel_of_ne hmem hji
              | some c2 =>
                rw [onMessageStep_found s hbr hid hg]
                exact mem_assocDel_of_ne hmem hji
      | close => exact absurd rfl hcl
    · intro u hbr hid
      have hg : assocGet i s.requests = some c := assocGet_of_mem hwf.1 hmem
      rw [onMessageStep_found s hbr hid hg]
      exact ⟨not_mem_assocDel_self hwf.1, rfl⟩
    · cases hr : s.reconnection with
      | none =>
        rw [onCloseStep_noRec hr]
        refine ⟨by simp, ?_⟩
        exact List.mem_map.mpr ⟨(i, c), hmem, rfl⟩
      | some r =>
        rw [onCloseStep_rec hr]
        refine ⟨by simp, ?_⟩
        exact List.mem_append_left _ (List.mem_map.mpr ⟨(i, c), hmem, rfl⟩)
  · intro s u c hmem
    by_cases hbr : u.nes = "broadcast"
    · rw [onMessageStep_broadcast s hbr] at hmem
      simp at hmem
    · cases hid : u.id with
      | none =>
        rw [onMessageStep_noId s hbr hid] at hmem
        simp at hmem
      | some i =>
        cases hg : assocGet i s.requests with
        | none =>
          rw [onMessageStep_missing s hbr hid hg] at hmem
          simp at hmem
        | some c2 =>
          rw [onMessageStep_found s hbr hid hg] at hmem
          have hc : c = c2 := by
            simp only [List.mem_singleton] at hmem
            injection hmem with h1 h2
          subst hc
          exact ⟨i, rfl, mem_of_assocGet hg⟩
  · intro rec es c
    have h := run_conservation es c (hinitwf rec)
    simpa [clientInit, pendingCount] using h

/-- C1 witness: a fresh client assigns id 1 to its first request, and in
the concrete out-of-order run (send 10, send 20, response for id 2,
response for id 1) callback 10 is invoked exactly once with nothing left
pending. -/
theorem C1_correlator_invariant_witness :
    ((clientInit none).ids + 1, 10)
        ∈ (sendStep 10 true true (clientInit none)).1.requests
    ∧ countCb 10 (run (clientInit none) demoEvents).2
        + pendingCount 10 (run (clientInit none) demoEvents).1.requests
        = sendCount 10 demoEvents :=
  ⟨(C1_correlator_invariant.1 (clientInit none) 10 (by decide) rfl).2.1,
   C1_correlator_invariant.2.2.2.2 none demoEvents 10⟩
